import Mathlib

/-
Verification of the RPKI manifest decoder (src/manifest.rs):
structural decoding of the manifest content, the lazy per-entry
iteration protocol, the timestamp ordering invariant and the digest
verification primitive.

The generic ASN.1/BER cursor toolkit, the rsync URI type, the x509 Time
type and the SHA-256 primitive are external collaborators of this file
(they live outside the core source); they are modelled from the spec at
their boundary.  Everything else is translated from manifest.rs.
-/

namespace Manifest

/-- Decode errors of the BER layer.  The source distinguishes only
`Error::Malformed` on the paths used here. -/
inductive BerError where
  | malformed
deriving DecidableEq, Repr

/-- Trust / content-integrity failure, a unit struct in the source. -/
inductive ValidationError where
  | validationError
deriving DecidableEq, Repr

/-- Modelled from the spec: tag values of the ASN.1 toolkit.  The exact
numbers are irrelevant to the claims; they only need to be distinct. -/
def tagSequence : Nat := 0x30

/-- Modelled from the spec: the context tag CTX_0 used for the optional
version field. -/
def tagCtx0 : Nat := 0xA0

/-- Modelled from the spec: the IA5String tag used for file names. -/
def tagIa5String : Nat := 0x16

/-- Modelled from the spec: the BIT STRING tag used for digests. -/
def tagBitString : Nat := 0x03

/-- Modelled from the spec: the INTEGER tag used for the manifest number. -/
def tagInteger : Nat := 0x02

/-- Modelled from the spec: the GeneralizedTime tag used for timestamps. -/
def tagGeneralizedTime : Nat := 0x18

/-- Modelled from the spec: the OBJECT IDENTIFIER tag. -/
def tagOid : Nat := 0x06

/-- Modelled from the spec: the encoded content of the SHA-256 object
identifier (2.16.840.1.101.3.4.2.1). -/
def sha256Oid : List Nat := [0x60, 0x86, 0x48, 0x01, 0x65, 0x03, 0x04, 0x02, 0x01]

/-- A tag-length-value item: tag octet, a length octet, then the content.
Modelled from the spec: the toolkit's cursor abstraction over a byte
source; lengths here are a single (unbounded) list element, which covers
every shape the claims exercise. -/
def tlv (tag : Nat) (content : List Nat) : List Nat :=
  tag :: content.length :: content

/-- Modelled from the spec: `Constructed::sequence` — the next value must
be a constructed sequence, its content is handed to the closure and must
be consumed entirely. -/
def berSequence (f : List Nat → Except BerError (α × List Nat)) (input : List Nat) :
    Except BerError (α × List Nat) :=
  match input with
  | t :: l :: rest =>
    if t = tagSequence ∧ l ≤ rest.length then
      match f (rest.take l) with
      | .error e => .error e
      | .ok (a, leftover) =>
        if leftover = [] then .ok (a, rest.drop l) else .error .malformed
    else .error .malformed
  | _ => .error .malformed

/-- Modelled from the spec: `Constructed::opt_sequence` — returns `none`
(the normal end-of-list signal) when the input is exhausted or the tag at
the current position is not the sequence tag; otherwise behaves like
`berSequence`. -/
def berOptSequence (f : List Nat → Except BerError (α × List Nat)) (input : List Nat) :
    Except BerError (Option α × List Nat) :=
  match input with
  | [] => .ok (none, [])
  | t :: rest0 =>
    if t = tagSequence then
      match rest0 with
      | l :: rest =>
        if l ≤ rest.length then
          match f (rest.take l) with
          | .error e => .error e
          | .ok (a, leftover) =>
            if leftover = [] then .ok (some a, rest.drop l) else .error .malformed
        else .error .malformed
      | [] => .error .malformed
    else .ok (none, input)

/-- Modelled from the spec: `Constructed::value_if` with a primitive
content extractor — the next value must carry the given tag; its raw
content octets are returned. -/
def berValueIf (tag : Nat) (input : List Nat) :
    Except BerError (List Nat × List Nat) :=
  match input with
  | t :: l :: rest =>
    if t = tag ∧ l ≤ rest.length then .ok (rest.take l, rest.drop l)
    else .error .malformed
  | _ => .error .malformed

/-- Modelled from the spec: `Constructed::opt_primitive_if` — if the next
value carries the given tag its content is returned, otherwise nothing is
consumed. -/
def berOptPrimitiveIf (tag : Nat) (input : List Nat) :
    Except BerError (Option (List Nat) × List Nat) :=
  match input with
  | [] => .ok (none, [])
  | t :: rest0 =>
    if t = tag then
      match rest0 with
      | l :: rest =>
        if l ≤ rest.length then .ok (some (rest.take l), rest.drop l)
        else .error .malformed
      | [] => .error .malformed
    else .ok (none, input)

/-- Modelled from the spec: `Constructed::take_unsigned` — an INTEGER
value whose raw content octets are kept verbatim; the content must be
nonempty. -/
def takeUnsigned (input : List Nat) : Except BerError (List Nat × List Nat) :=
  match berValueIf tagInteger input with
  | .error e => .error e
  | .ok (content, rest) =>
    if content = [] then .error .malformed else .ok (content, rest)

/-- Modelled from the spec: `Time::take_from` of the x509 collaborator —
a GeneralizedTime value; the content octets are read as a base-256
number, the absolute timestamp. -/
def timeTakeFrom (input : List Nat) : Except BerError (Nat × List Nat) :=
  match berValueIf tagGeneralizedTime input with
  | .error e => .error e
  | .ok (content, rest) => .ok (content.foldl (fun a b => a * 256 + b) 0, rest)

/-- Modelled from the spec: `Oid::skip_if` — the next value must be an
object identifier with exactly the given encoded content, else the
decode fails as malformed. -/
def oidSkipIf (oid : List Nat) (input : List Nat) : Except BerError (Unit × List Nat) :=
  match berValueIf tagOid input with
  | .error e => .error e
  | .ok (content, rest) =>
    if content = oid then .ok ((), rest) else .error .malformed

/-- A decoded BER bit string: the unused-bit count octet and the
remaining content octets.  Modelled from the spec: the toolkit's
bit-string value with accessors for octet content and unused-bit
count. -/
structure BitString where
  unused : Nat
  octets : List Nat
deriving DecidableEq, Repr

/-- Modelled from the spec: `BitString::take_from` — a primitive
BIT STRING value; the first content octet is the unused-bit count, the
rest are the bit-string octets.  Empty content is malformed. -/
def BitString.take_from (input : List Nat) : Except BerError (BitString × List Nat) :=
  match berValueIf tagBitString input with
  | .error e => .error e
  | .ok ([], _) => .error .malformed
  | .ok (u :: oct, rest) => .ok (⟨u, oct⟩, rest)

/-- Modelled from the spec: `BitString::skip_in` — checks the same shape
as `BitString.take_from` but discards the value. -/
def BitString.skip_in (input : List Nat) : Except BerError (Unit × List Nat) :=
  match berValueIf tagBitString input with
  | .error e => .error e
  | .ok ([], _) => .error .malformed
  | .ok (_ :: _, rest) => .ok ((), rest)

/-- Modelled from the spec: `BitString::octet_slice` — the octet view of
the bit string, available only when the unused-bit count is zero. -/
def BitString.octet_slice (b : BitString) : Option (List Nat) :=
  if b.unused = 0 then some b.octets else none

/-- The digest wrapper `ManifestHash(BitString)` from manifest.rs. -/
structure ManifestHash where
  bits : BitString
deriving DecidableEq, Repr

/-- One file-list record: file name octets and digest, from manifest.rs.
The file name is the raw content of the IA5String value
(`OctetString::take_content_from`). -/
structure FileAndHash where
  file : List Nat
  hash : ManifestHash
deriving DecidableEq, Repr

/-- The closure inside `FileAndHash::skip_opt_in`: consume an
IA5String-tagged file name and a bit string, discarding both. -/
def FileAndHash.skipBody (c : List Nat) : Except BerError (Unit × List Nat) :=
  match berValueIf tagIa5String c with
  | .error e => .error e
  | .ok (_, c1) =>
    match BitString.skip_in c1 with
    | .error e => .error e
    | .ok ((), c2) => .ok ((), c2)

/-- The closure inside `FileAndHash::take_opt_from`: consume an
IA5String-tagged file name and a bit string, retaining both. -/
def FileAndHash.takeBody (c : List Nat) : Except BerError (FileAndHash × List Nat) :=
  match berValueIf tagIa5String c with
  | .error e => .error e
  | .ok (file, c1) =>
    match BitString.take_from c1 with
    | .error e => .error e
    | .ok (bits, c2) => .ok (⟨file, ⟨bits⟩⟩, c2)

/-- `FileAndHash::skip_opt_in`: the structure-only pass.  An optional
sequence holding an IA5String-tagged file name and a bit string, both
discarded. -/
def FileAndHash.skip_opt_in (input : List Nat) :
    Except BerError (Option Unit × List Nat) :=
  berOptSequence FileAndHash.skipBody input

/-- `FileAndHash::take_opt_from`: the full-extraction pass.  The same
shape as the structure-only pass, but the file name octets are retained
and the bit string is wrapped into a `ManifestHash`. -/
def FileAndHash.take_opt_from (input : List Nat) :
    Except BerError (Option FileAndHash × List Nat) :=
  berOptSequence FileAndHash.takeBody input

/-- When `berOptSequence` yields an entry, it consumed at least the tag
and length octets: the remaining input is strictly shorter. -/
theorem berOptSequence_some_length {f : List Nat → Except BerError (α × List Nat)}
    {input rest : List Nat} {a : α}
    (h : berOptSequence f input = .ok (some a, rest)) :
    rest.length < input.length := by
  unfold berOptSequence at h
  match input with
  | [] => simp at h
  | t :: rest0 =>
    simp only at h
    split at h
    · match rest0 with
      | [] => simp at h
      | l :: r =>
        simp only at h
        split at h
        · split at h
          · simp at h
          · next hres =>
            split at h
            · simp only [Except.ok.injEq, Prod.mk.injEq] at h
              obtain ⟨-, rfl⟩ := h
              simp only [List.length_cons, List.length_drop]
              omega
            · simp at h
        · simp at h
    · simp only [Except.ok.injEq, Prod.mk.injEq] at h
      obtain ⟨h1, -⟩ := h
      simp at h1

/-- The validating skip loop from `ManifestContent::decode`: repeatedly
applies `FileAndHash.skip_opt_in` until it signals end-of-list, counting
the entries and returning the unconsumed remainder. -/
def skipLoopCount (input : List Nat) : Except BerError (Nat × List Nat) :=
  match h : FileAndHash.skip_opt_in input with
  | .error e => .error e
  | .ok (none, rest) => .ok (0, rest)
  | .ok (some _, rest) =>
    match skipLoopCount rest with
    | .error e => .error e
    | .ok (n, rem) => .ok (n + 1, rem)
termination_by input.length
decreasing_by exact berOptSequence_some_length h

/-- The decoded manifest content from manifest.rs: manifest number
octets, the two timestamps and the captured raw file-list bytes. -/
structure ManifestContent where
  manifest_number : List Nat
  this_update : Nat
  next_update : Nat
  file_list : List Nat
deriving DecidableEq, Repr

/-- The entry-list step of `ManifestContent::decode`: a sequence whose
content is walked by the validating skip loop while its raw bytes are
captured; the loop must consume the content entirely. -/
def decodeFileList (input : List Nat) : Except BerError (List Nat × List Nat) :=
  match input with
  | t :: l :: rest =>
    if t = tagSequence ∧ l ≤ rest.length then
      match skipLoopCount (rest.take l) with
      | .error e => .error e
      | .ok (_, leftover) =>
        if leftover = [] then .ok (rest.take l, rest.drop l) else .error .malformed
    else .error .malformed
  | _ => .error .malformed

/-- The tail of `ManifestContent::decode` after the optional version
field, split out so the decode definition stays first-order. -/
def ManifestContent.decodeAfterVersion (c0 : List Nat) :
    Except BerError (ManifestContent × List Nat) :=
  match takeUnsigned c0 with
  | .error e => .error e
  | .ok (manifest_number, c1) =>
    match timeTakeFrom c1 with
    | .error e => .error e
    | .ok (this_update, c2) =>
      match timeTakeFrom c2 with
      | .error e => .error e
      | .ok (next_update, c3) =>
        if next_update < this_update then .error .malformed
        else
          match oidSkipIf sha256Oid c3 with
          | .error e => .error e
          | .ok ((), c4) =>
            match decodeFileList c4 with
            | .error e => .error e
            | .ok (file_list, c5) =>
              .ok (⟨manifest_number, this_update, next_update, file_list⟩, c5)

/-- `ManifestContent::decode`: optional version (must be zero), manifest
number, the two timestamps with the ordering check, the SHA-256 object
identifier, and the entry-list sequence validated by the skip loop while
its raw bytes are captured. -/
def ManifestContent.decodeContent (c : List Nat) :
    Except BerError (ManifestContent × List Nat) :=
  match berOptPrimitiveIf tagCtx0 c with
  | .error e => .error e
  | .ok (vers, c0) =>
    match vers with
    | some content =>
      match content with
      | [v] =>
        if v ≠ 0 then .error .malformed
        else ManifestContent.decodeAfterVersion c0
      | _ => .error .malformed
    | none => ManifestContent.decodeAfterVersion c0

/-- The whole signed content is one outer sequence around the fields. -/
def ManifestContent.decode (input : List Nat) :
    Except BerError (ManifestContent × List Nat) :=
  berSequence ManifestContent.decodeContent input

/-- Modelled from the spec: whether one UTF-8 continuation octet is in
range. -/
def utf8Cont (b : Nat) : Bool :=
  decide (0x80 ≤ b ∧ b ≤ 0xBF)

/-- Modelled from the spec: the strict UTF-8 acceptor used when a file
name is interpreted as UTF-8 (`std::str::from_utf8` at the boundary). -/
def validUtf8 (l : List Nat) : Bool :=
  match l with
  | [] => true
  | b :: rest =>
    if b < 0x80 then validUtf8 rest
    else if 0xC2 ≤ b ∧ b ≤ 0xDF then
      match rest with
      | c1 :: r => utf8Cont c1 && validUtf8 r
      | [] => false
    else if b = 0xE0 then
      match rest with
      | c1 :: c2 :: r => decide (0xA0 ≤ c1 ∧ c1 ≤ 0xBF) && utf8Cont c2 && validUtf8 r
      | _ => false
    else if (0xE1 ≤ b ∧ b ≤ 0xEC) ∨ b = 0xEE ∨ b = 0xEF then
      match rest with
      | c1 :: c2 :: r => utf8Cont c1 && utf8Cont c2 && validUtf8 r
      | _ => false
    else if b = 0xED then
      match rest with
      | c1 :: c2 :: r => decide (0x80 ≤ c1 ∧ c1 ≤ 0x9F) && utf8Cont c2 && validUtf8 r
      | _ => false
    else if b = 0xF0 then
      match rest with
      | c1 :: c2 :: c3 :: r =>
        decide (0x90 ≤ c1 ∧ c1 ≤ 0xBF) && utf8Cont c2 && utf8Cont c3 && validUtf8 r
      | _ => false
    else if 0xF1 ≤ b ∧ b ≤ 0xF3 then
      match rest with
      | c1 :: c2 :: c3 :: r => utf8Cont c1 && utf8Cont c2 && utf8Cont c3 && validUtf8 r
      | _ => false
    else if b = 0xF4 then
      match rest with
      | c1 :: c2 :: c3 :: r =>
        decide (0x80 ≤ c1 ∧ c1 ≤ 0x8F) && utf8Cont c2 && utf8Cont c3 && validUtf8 r
      | _ => false
    else false

/-- Modelled from the spec: an rsync URI, kept as its byte sequence. -/
structure Uri where
  bytes : List Nat
deriving DecidableEq, Repr

/-- Modelled from the spec: `rsync::Uri::join` — standard relative-path
resolution of a single file name against a base that ends in a slash;
fails on a malformed or path-traversal-unsafe name (empty, containing a
slash, or a dot segment). -/
def Uri.join (base : Uri) (name : List Nat) : Except ValidationError Uri :=
  if name = [] ∨ 0x2F ∈ name ∨ name = [0x2E] ∨ name = [0x2E, 0x2E] then
    .error .validationError
  else .ok ⟨base.bytes ++ name⟩

/-- `FileAndHash::to_uri_etc`: interpret the file name as UTF-8, join it
against the base publication-point URI, and pair the result with the
digest; either failure is a `ValidationError` for this entry. -/
def FileAndHash.to_uri_etc (fh : FileAndHash) (base : Uri) :
    Except ValidationError (Uri × ManifestHash) :=
  if validUtf8 fh.file then
    match base.join fh.file with
    | .error e => .error e
    | .ok uri => .ok (uri, fh.hash)
  else .error .validationError

/-- The iterator state from manifest.rs: the base URI and the unread
suffix of the captured file-list bytes. -/
structure ManifestIter where
  base : Uri
  file_list : List Nat
deriving DecidableEq, Repr

/-- `ManifestContent::iter_uris`: a fresh iterator over a clone of the
captured file-list bytes. -/
def ManifestContent.iter_uris (c : ManifestContent) (base : Uri) : ManifestIter :=
  ⟨base, c.file_list⟩

/-- The observable outcome of one `next()` call.  `panic` models the
`.unwrap()` in `ManifestIter::next` aborting the process when the BER
decode of the remaining captured bytes fails. -/
inductive NextOutcome where
  | panic
  | exhausted
  | item (r : Except ValidationError (Uri × ManifestHash))
deriving Repr

/-- `ManifestIter::next`: BER-decode one optional entry from the unread
suffix; `.unwrap()` turns a decode error into a process abort (`panic`);
an extracted entry is resolved by `to_uri_etc`. -/
def ManifestIter.next (it : ManifestIter) : NextOutcome × ManifestIter :=
  match FileAndHash.take_opt_from it.file_list with
  | .error _ => (.panic, it)
  | .ok (none, rest) => (.exhausted, ⟨it.base, rest⟩)
  | .ok (some fh, rest) => (.item (fh.to_uri_etc it.base), ⟨it.base, rest⟩)

/-- `Clone` for `ManifestIter` (derived in the source): a new iterator
with the same base and the same unread suffix. -/
def ManifestIter.clone (it : ManifestIter) : ManifestIter :=
  ⟨it.base, it.file_list⟩

/-- The iterator after `k` calls to `next`. -/
def ManifestIter.advance (it : ManifestIter) : Nat → ManifestIter
  | 0 => it
  | k + 1 => (it.next.2).advance k

/-- The first `n` outcomes an iterator produces. -/
def ManifestIter.run (it : ManifestIter) : Nat → List NextOutcome
  | 0 => []
  | n + 1 => it.next.1 :: (it.next.2).run n

/-- The full list of entries yielded by iterating the captured bytes,
stopping at the end-of-list signal or at a decode error. -/
def iterEntries (fl : List Nat) : List FileAndHash :=
  match h : FileAndHash.take_opt_from fl with
  | .ok (some fh, rest) => fh :: iterEntries rest
  | _ => []
termination_by fl.length
decreasing_by exact berOptSequence_some_length h

/-- The observable outcome of `ManifestHash::verify`.  `panic` models the
`.unwrap()` on `octet_slice` aborting the process. -/
inductive VerifyOutcome where
  | ok
  | err
  | panic
deriving DecidableEq, Repr

/-- `ManifestHash::verify`: unwrap the octet view of the stored digest
bit string (aborting if the unused-bit count is nonzero), compute SHA-256
of the input and compare.  The SHA-256 primitive is an external
collaborator and is passed as a function; the constant-time slice
comparison is modelled as equality of octet sequences (it fails on any
length mismatch or inequality). -/
def ManifestHash.verify (sha256 : List Nat → List Nat) (h : ManifestHash)
    (bytes : List Nat) : VerifyOutcome :=
  match h.bits.octet_slice with
  | none => .panic
  | some stored => if stored = sha256 bytes then .ok else .err

/-- An encoded file-list entry: a sequence holding an IA5String file name
and a BIT STRING digest with its unused-bit octet. -/
def encodeEntry (name : List Nat) (unused : Nat) (digest : List Nat) : List Nat :=
  tlv tagSequence (tlv tagIa5String name ++ tlv tagBitString (unused :: digest))

/-- The concatenated encoding of a list of entries. -/
def encodeEntries : List (List Nat × Nat × List Nat) → List Nat
  | [] => []
  | (n, u, d) :: es => encodeEntry n u d ++ encodeEntries es

/-- A structurally valid manifest-content encoding: optional version 0,
INTEGER manifest number, two GeneralizedTime timestamps, a digest
algorithm identifier and the entry-list sequence. -/
def encodeManifest (withVersion : Bool) (mn : List Nat) (t1 t2 : Nat)
    (alg : List Nat) (entries : List (List Nat × Nat × List Nat)) : List Nat :=
  tlv tagSequence (
    (if withVersion then tlv tagCtx0 [0] else []) ++
    tlv tagInteger mn ++
    tlv tagGeneralizedTime [t1] ++
    tlv tagGeneralizedTime [t2] ++
    tlv tagOid alg ++
    tlv tagSequence (encodeEntries entries))

/-- Forget the extracted entry of a full-extraction result, keeping the
acceptance verdict and the consumed bytes. -/
def stripEntry :
    Except BerError (Option FileAndHash × List Nat) →
      Except BerError (Option Unit × List Nat)
  | .error e => .error e
  | .ok (o, r) => .ok (o.map fun _ => (), r)

/-- The shape guarantee `ManifestContent::decode` establishes for the
captured file-list bytes: the skip loop accepts them and consumes them
entirely. -/
def entryListOk (fl : List Nat) : Bool :=
  match skipLoopCount fl with
  | .ok (_, rem) => rem.isEmpty
  | .error _ => false

/-- An injective encoding of octet sequences as one number, used to
instantiate the abstract digest primitive in witnesses. -/
def encodeNatList : List Nat → Nat
  | [] => 0
  | a :: l => Nat.pair a (encodeNatList l) + 1

/-- A concrete 32-octet injective digest function for witnesses. -/
def injDigest (x : List Nat) : List Nat :=
  encodeNatList x :: List.replicate 31 0

/-- The byte sequence of an ASCII string. -/
def asciiBytes (s : String) : List Nat :=
  s.data.map Char.toNat

/-- A sample entry list for witnesses. -/
def sampleEntries : List (List Nat × Nat × List Nat) :=
  [([0x66, 0x2E, 0x63], 0, [7, 8])]

/-- A sample well-formed manifest-content encoding for witnesses. -/
def sampleInput : List Nat :=
  encodeManifest true [1] 5 9 sha256Oid sampleEntries

/-- The content `sampleInput` decodes to. -/
def sampleContent : ManifestContent :=
  ⟨[1], 5, 9, encodeEntries sampleEntries⟩

/-- A sample base URI for witnesses. -/
def sampleBase : Uri :=
  ⟨[0x72, 0x2F]⟩

/-- Reading a value of matching tag from a TLV followed by a trailer
yields the content and the trailer. -/
theorem berValueIf_tlv (tag : Nat) (c r : List Nat) :
    berValueIf tag (tlv tag c ++ r) = .ok (c, r) := by
  simp [berValueIf, tlv, List.take_left, List.drop_left]

/-- `berValueIf_tlv` without a trailer. -/
theorem berValueIf_tlv_nil (tag : Nat) (c : List Nat) :
    berValueIf tag (tlv tag c) = .ok (c, []) := by
  simpa using berValueIf_tlv tag c []

/-- `berSequence` on a sequence TLV with a trailer runs the closure on
the content. -/
theorem berSequence_tlv (f : List Nat → Except BerError (α × List Nat)) (c r : List Nat) :
    berSequence f (tlv tagSequence c ++ r) =
      match f c with
      | .error e => .error e
      | .ok (a, leftover) =>
        if leftover = [] then .ok (a, r) else .error .malformed := by
  cases h : f c with
  | error e => simp [berSequence, tlv, List.take_left, List.drop_left, h]
  | ok p =>
    obtain ⟨a, leftover⟩ := p
    by_cases hl : leftover = [] <;>
      simp [berSequence, tlv, List.take_left, List.drop_left, h, hl]

/-- `berOptSequence` on a sequence TLV with a trailer runs the closure
on the content. -/
theorem berOptSequence_tlv (f : List Nat → Except BerError (α × List Nat)) (c r : List Nat) :
    berOptSequence f (tlv tagSequence c ++ r) =
      match f c with
      | .error e => .error e
      | .ok (a, leftover) =>
        if leftover = [] then .ok (some a, r) else .error .malformed := by
  cases h : f c with
  | error e => simp [berOptSequence, tlv, List.take_left, List.drop_left, h]
  | ok p =>
    obtain ⟨a, leftover⟩ := p
    by_cases hl : leftover = [] <;>
      simp [berOptSequence, tlv, List.take_left, List.drop_left, h, hl]

/-- `berOptSequence` signals end-of-list on a mismatching tag without
consuming anything. -/
theorem berOptSequence_mismatch (f : List Nat → Except BerError (α × List Nat))
    {t : Nat} (rest : List Nat) (h : t ≠ tagSequence) :
    berOptSequence f (t :: rest) = .ok (none, t :: rest) := by
  simp [berOptSequence, h]

/-- `berOptPrimitiveIf` on a TLV of the expected tag returns its
content. -/
theorem berOptPrimitiveIf_tlv (tag : Nat) (c r : List Nat) :
    berOptPrimitiveIf tag (tlv tag c ++ r) = .ok (some c, r) := by
  simp [berOptPrimitiveIf, tlv, List.take_left, List.drop_left]

/-- `berOptPrimitiveIf` on a mismatching tag consumes nothing. -/
theorem berOptPrimitiveIf_mismatch (tag : Nat) {t : Nat} (rest : List Nat) (h : t ≠ tag) :
    berOptPrimitiveIf tag (t :: rest) = .ok (none, t :: rest) := by
  simp [berOptPrimitiveIf, h]

/-- Skipping a bit string checks exactly the shape that extracting one
checks. -/
theorem skip_in_eq_take_from (c : List Nat) :
    BitString.skip_in c = (BitString.take_from c).map fun p => ((), p.2) := by
  unfold BitString.skip_in BitString.take_from
  cases h : berValueIf tagBitString c with
  | error e => simp [Except.map]
  | ok p =>
    obtain ⟨content, rest⟩ := p
    cases content <;> simp [Except.map]

/-- The structure-only entry closure is the full-extraction closure with
its result forgotten. -/
theorem skipBody_eq_takeBody (c : List Nat) :
    FileAndHash.skipBody c = (FileAndHash.takeBody c).map fun p => ((), p.2) := by
  unfold FileAndHash.skipBody FileAndHash.takeBody
  cases hv : berValueIf tagIa5String c with
  | error e => simp [Except.map]
  | ok p =>
    obtain ⟨file, c1⟩ := p
    cases ht : BitString.take_from c1 with
    | error e => simp [skip_in_eq_take_from, ht, Except.map]
    | ok q => obtain ⟨bits, c2⟩ := q; simp [skip_in_eq_take_from, ht, Except.map]

/-- `berOptSequence` is natural in the closure result: forgetting the
result after the fact equals running the forgetful closure. -/
theorem berOptSequence_strip {α β : Type} (m : α → β)
    (f : List Nat → Except BerError (α × List Nat))
    (g : List Nat → Except BerError (β × List Nat))
    (hfg : ∀ c, g c = (f c).map fun p => (m p.1, p.2))
    (input : List Nat) :
    berOptSequence g input =
      (berOptSequence f input).map fun p => (p.1.map m, p.2) := by
  unfold berOptSequence
  match input with
  | [] => simp [Except.map]
  | t :: rest0 =>
    simp only
    split
    · match rest0 with
      | [] => simp [Except.map]
      | l :: rest =>
        simp only
        split
        · rw [hfg]
          cases h : f (rest.take l) with
          | error e => simp [Except.map]
          | ok p =>
            obtain ⟨a, leftover⟩ := p
            by_cases hl : leftover = [] <;> simp [hl, Except.map]
        · simp [Except.map]
    · simp [Except.map]

/-- The two single-entry passes agree: the structure-only pass is the
full-extraction pass with the extracted entry forgotten. -/
theorem skip_opt_in_eq_strip (input : List Nat) :
    FileAndHash.skip_opt_in input = stripEntry (FileAndHash.take_opt_from input) := by
  unfold FileAndHash.skip_opt_in FileAndHash.take_opt_from
  rw [berOptSequence_strip (fun _ => ()) FileAndHash.takeBody FileAndHash.skipBody
      skipBody_eq_takeBody input]
  cases berOptSequence FileAndHash.takeBody input with
  | error e => rfl
  | ok p => obtain ⟨o, r⟩ := p; cases o <;> rfl

/-- Inverting the pass agreement: a skipped entry means the extraction
pass yields an entry over the same bytes. -/
theorem take_of_skip_some {fl rest : List Nat}
    (h : FileAndHash.skip_opt_in fl = .ok (some (), rest)) :
    ∃ fh, FileAndHash.take_opt_from fl = .ok (some fh, rest) := by
  rw [skip_opt_in_eq_strip] at h
  cases ht : FileAndHash.take_opt_from fl with
  | error e => rw [ht] at h; exact absurd h (by simp [stripEntry])
  | ok p =>
    obtain ⟨o, r⟩ := p
    rw [ht] at h
    cases o with
    | none => exact absurd h (by simp [stripEntry])
    | some fh =>
      simp only [stripEntry, Except.ok.injEq, Prod.mk.injEq] at h
      obtain ⟨-, rfl⟩ := h
      exact ⟨fh, rfl⟩

/-- Inverting the pass agreement: an end-of-list signal of the skip pass
is one of the extraction pass. -/
theorem take_of_skip_none {fl rest : List Nat}
    (h : FileAndHash.skip_opt_in fl = .ok (none, rest)) :
    FileAndHash.take_opt_from fl = .ok (none, rest) := by
  rw [skip_opt_in_eq_strip] at h
  cases ht : FileAndHash.take_opt_from fl with
  | error e => rw [ht] at h; exact absurd h (by simp [stripEntry])
  | ok p =>
    obtain ⟨o, r⟩ := p
    rw [ht] at h
    cases o with
    | none =>
      simp only [stripEntry, Except.ok.injEq, Prod.mk.injEq] at h
      obtain ⟨-, rfl⟩ := h
      rfl
    | some fh => exact absurd h (by simp [stripEntry])

/-- Inverting the pass agreement: errors agree as well. -/
theorem take_of_skip_error {fl : List Nat} {e : BerError}
    (h : FileAndHash.skip_opt_in fl = .error e) :
    FileAndHash.take_opt_from fl = .error e := by
  rw [skip_opt_in_eq_strip] at h
  cases ht : FileAndHash.take_opt_from fl with
  | error e2 => rw [ht] at h
  | ok p => obtain ⟨o, r⟩ := p; rw [ht] at h; exact absurd h (by simp [stripEntry])

/-- The full-extraction closure accepts an encoded entry body. -/
theorem takeBody_encoded (name : List Nat) (u : Nat) (d : List Nat) :
    FileAndHash.takeBody (tlv tagIa5String name ++ tlv tagBitString (u :: d)) =
      .ok (⟨name, ⟨⟨u, d⟩⟩⟩, []) := by
  simp [FileAndHash.takeBody, berValueIf_tlv, BitString.take_from, berValueIf_tlv_nil]

/-- The full-extraction pass accepts an encoded entry and leaves the
trailer. -/
theorem take_opt_from_encodeEntry (name : List Nat) (u : Nat) (d : List Nat)
    (rest : List Nat) :
    FileAndHash.take_opt_from (encodeEntry name u d ++ rest) =
      .ok (some ⟨name, ⟨⟨u, d⟩⟩⟩, rest) := by
  unfold FileAndHash.take_opt_from encodeEntry
  rw [berOptSequence_tlv, takeBody_encoded]
  simp

/-- The structure-only pass accepts an encoded entry and leaves the
trailer. -/
theorem skip_opt_in_encodeEntry (name : List Nat) (u : Nat) (d : List Nat)
    (rest : List Nat) :
    FileAndHash.skip_opt_in (encodeEntry name u d ++ rest) = .ok (some (), rest) := by
  rw [skip_opt_in_eq_strip, take_opt_from_encodeEntry]
  rfl

/-- The full-extraction pass signals end-of-list on empty input. -/
theorem take_opt_from_nil : FileAndHash.take_opt_from [] = .ok (none, []) := rfl

/-- The structure-only pass signals end-of-list on empty input. -/
theorem skip_opt_in_nil : FileAndHash.skip_opt_in [] = .ok (none, []) := rfl

/-- Unfolding the skip loop when an entry is skipped. -/
theorem skipLoopCount_some {input rest : List Nat}
    (h : FileAndHash.skip_opt_in input = .ok (some (), rest)) :
    skipLoopCount input =
      match skipLoopCount rest with
      | .error e => .error e
      | .ok (n, rem) => .ok (n + 1, rem) := by
  rw [skipLoopCount.eq_def]
  split
  · next e heq => rw [h] at heq; cases heq
  · next rest2 heq => rw [h] at heq; cases heq
  · next val rest2 heq =>
    rw [h] at heq
    simp only [Except.ok.injEq, Prod.mk.injEq] at heq
    rw [← heq.2]

/-- Unfolding the skip loop at the end-of-list signal. -/
theorem skipLoopCount_none {input rest : List Nat}
    (h : FileAndHash.skip_opt_in input = .ok (none, rest)) :
    skipLoopCount input = .ok (0, rest) := by
  rw [skipLoopCount.eq_def]
  split
  · next e heq => rw [h] at heq; cases heq
  · next rest2 heq =>
    rw [h] at heq
    simp only [Except.ok.injEq, Prod.mk.injEq] at heq
    obtain ⟨-, rfl⟩ := heq
    rfl
  · next val rest2 heq => rw [h] at heq; cases heq

/-- Unfolding the skip loop on a decode error. -/
theorem skipLoopCount_error {input : List Nat} {e : BerError}
    (h : FileAndHash.skip_opt_in input = .error e) :
    skipLoopCount input = .error e := by
  rw [skipLoopCount.eq_def]
  split
  · next e2 heq => rw [h] at heq
  · next rest2 heq => rw [h] at heq; cases heq
  · next val rest2 heq => rw [h] at heq; cases heq

/-- Unfolding full iteration when an entry is extracted. -/
theorem iterEntries_some {fl rest : List Nat} {fh : FileAndHash}
    (h : FileAndHash.take_opt_from fl = .ok (some fh, rest)) :
    iterEntries fl = fh :: iterEntries rest := by
  rw [iterEntries.eq_def]
  split
  · next fh2 rest2 heq =>
    rw [h] at heq
    simp only [Except.ok.injEq, Prod.mk.injEq, Option.some.injEq] at heq
    rw [heq.1, ← heq.2]
  · next hne => exact (hne fh rest h).elim

/-- Unfolding full iteration at the end-of-list signal. -/
theorem iterEntries_none {fl rest : List Nat}
    (h : FileAndHash.take_opt_from fl = .ok (none, rest)) :
    iterEntries fl = [] := by
  rw [iterEntries.eq_def]
  split
  · next fh2 rest2 heq => rw [h] at heq; cases heq
  · rfl

/-- Unfolding full iteration on a decode error. -/
theorem iterEntries_error {fl : List Nat} {e : BerError}
    (h : FileAndHash.take_opt_from fl = .error e) :
    iterEntries fl = [] := by
  rw [iterEntries.eq_def]
  split
  · next fh2 rest2 heq => rw [h] at heq; cases heq
  · rfl

/-- The validating skip loop accepts every encoded entry list, counting
its entries and consuming it entirely. -/
theorem skipLoopCount_encodeEntries (es : List (List Nat × Nat × List Nat)) :
    skipLoopCount (encodeEntries es) = .ok (es.length, []) := by
  induction es with
  | nil =>
    rw [show encodeEntries [] = [] from rfl, skipLoopCount_none skip_opt_in_nil]
    rfl
  | cons e es ih =>
    obtain ⟨n, u, d⟩ := e
    rw [show encodeEntries ((n, u, d) :: es) = encodeEntry n u d ++ encodeEntries es
        from rfl]
    rw [skipLoopCount_some (skip_opt_in_encodeEntry n u d (encodeEntries es)), ih]
    rfl

/-- Full iteration over an encoded entry list yields exactly the encoded
entries. -/
theorem iterEntries_encodeEntries (es : List (List Nat × Nat × List Nat)) :
    iterEntries (encodeEntries es) =
      es.map fun p => ⟨p.1, ⟨⟨p.2.1, p.2.2⟩⟩⟩ := by
  induction es with
  | nil => rw [show encodeEntries [] = [] from rfl, iterEntries_none take_opt_from_nil]; rfl
  | cons e es ih =>
    obtain ⟨n, u, d⟩ := e
    rw [show encodeEntries ((n, u, d) :: es) = encodeEntry n u d ++ encodeEntries es
        from rfl]
    rw [iterEntries_some (take_opt_from_encodeEntry n u d (encodeEntries es)), ih]
    rfl

/-- The file-list step accepts an encoded entry-list sequence, capturing
the raw entry bytes. -/
theorem decodeFileList_encoded (es : List (List Nat × Nat × List Nat)) :
    decodeFileList (tlv tagSequence (encodeEntries es)) =
      .ok (encodeEntries es, []) := by
  simp [decodeFileList, tlv, skipLoopCount_encodeEntries, List.take_length,
    List.drop_length]

/-- The decode tail accepts exactly the encodings with a nonempty
manifest number, ordered timestamps and the SHA-256 identifier. -/
theorem decodeAfterVersion_encoded (mn : List Nat) (t1 t2 : Nat) (alg : List Nat)
    (es : List (List Nat × Nat × List Nat)) :
    ManifestContent.decodeAfterVersion
      (tlv tagInteger mn ++ (tlv tagGeneralizedTime [t1] ++ (tlv tagGeneralizedTime [t2] ++
        (tlv tagOid alg ++ tlv tagSequence (encodeEntries es))))) =
      if mn = [] then .error .malformed
      else if t2 < t1 then .error .malformed
      else if alg = sha256Oid then .ok (⟨mn, t1, t2, encodeEntries es⟩, [])
      else .error .malformed := by
  by_cases hmn : mn = [] <;> by_cases hord : t2 < t1 <;> by_cases halg : alg = sha256Oid <;>
    simp [ManifestContent.decodeAfterVersion, takeUnsigned, timeTakeFrom, oidSkipIf,
      berValueIf_tlv, decodeFileList_encoded, hmn, hord, halg]

/-- `berSequence` on a sequence TLV without a trailer. -/
theorem berSequence_tlv_nil (f : List Nat → Except BerError (α × List Nat)) (c : List Nat) :
    berSequence f (tlv tagSequence c) =
      match f c with
      | .error e => .error e
      | .ok (a, leftover) =>
        if leftover = [] then .ok (a, []) else .error .malformed := by
  have h := berSequence_tlv f c []
  rwa [List.append_nil] at h

/-- `berOptPrimitiveIf` looking for the version tag leaves an
INTEGER-headed input untouched. -/
theorem berOptPrimitiveIf_skip_integer (c r : List Nat) :
    berOptPrimitiveIf tagCtx0 (tlv tagInteger c ++ r) =
      .ok (none, tlv tagInteger c ++ r) := by
  simp [berOptPrimitiveIf, tlv, tagCtx0, tagInteger]

/-- `ManifestContent::decode` on the encoding family: it succeeds
exactly when the manifest number is nonempty, the timestamps are
ordered, and the digest algorithm is SHA-256, yielding the encoded
fields and the encoded entry-list bytes as the capture. -/
theorem decode_encodeManifest (v : Bool) (mn : List Nat) (t1 t2 : Nat) (alg : List Nat)
    (es : List (List Nat × Nat × List Nat)) :
    ManifestContent.decode (encodeManifest v mn t1 t2 alg es) =
      if mn = [] then .error .malformed
      else if t2 < t1 then .error .malformed
      else if alg = sha256Oid then .ok (⟨mn, t1, t2, encodeEntries es⟩, [])
      else .error .malformed := by
  cases v with
  | true =>
    by_cases hmn : mn = [] <;> by_cases hord : t2 < t1 <;>
      by_cases halg : alg = sha256Oid <;>
      simp [ManifestContent.decode, ManifestContent.decodeContent, encodeManifest,
        berSequence_tlv_nil, berOptPrimitiveIf_tlv, decodeAfterVersion_encoded,
        hmn, hord, halg]
  | false =>
    by_cases hmn : mn = [] <;> by_cases hord : t2 < t1 <;>
      by_cases halg : alg = sha256Oid <;>
      simp [ManifestContent.decode, ManifestContent.decodeContent, encodeManifest,
        berSequence_tlv_nil, berOptPrimitiveIf_skip_integer, decodeAfterVersion_encoded,
        hmn, hord, halg]


/-- A captured file list retains a successful skip-loop outcome. -/
theorem decodeFileList_ok_inv {c4 fl rest : List Nat}
    (h : decodeFileList c4 = .ok (fl, rest)) :
    ∃ n, skipLoopCount fl = .ok (n, []) := by
  unfold decodeFileList at h
  split at h
  · split at h
    · split at h
      · cases h
      · next n leftover heq =>
        split at h
        · next hempty =>
          simp only [Except.ok.injEq, Prod.mk.injEq] at h
          obtain ⟨rfl, -⟩ := h
          exact ⟨n, by rw [heq, hempty]⟩
        · cases h
    · cases h
  · cases h

/-- The decode tail only succeeds with ordered timestamps and a fully
validated captured file list. -/
theorem decodeAfterVersion_ok_inv {c0 : List Nat} {c : ManifestContent}
    {rest : List Nat}
    (h : ManifestContent.decodeAfterVersion c0 = .ok (c, rest)) :
    c.this_update ≤ c.next_update ∧ ∃ n, skipLoopCount c.file_list = .ok (n, []) := by
  unfold ManifestContent.decodeAfterVersion at h
  split at h
  · cases h
  · split at h
    · cases h
    · split at h
      · cases h
      · split at h
        · cases h
        · next hord =>
          split at h
          · cases h
          · split at h
            · cases h
            · next fl c5 heq =>
              simp only [Except.ok.injEq, Prod.mk.injEq] at h
              obtain ⟨rfl, -⟩ := h
              exact ⟨by simpa using Nat.le_of_not_lt hord, decodeFileList_ok_inv heq⟩

/-- A successful `berSequence` comes from the closure succeeding with no
leftover on some content. -/
theorem berSequence_ok_inv {f : List Nat → Except BerError (α × List Nat)}
    {input : List Nat} {a : α} {rest : List Nat}
    (h : berSequence f input = .ok (a, rest)) :
    ∃ ct, f ct = .ok (a, []) := by
  unfold berSequence at h
  split at h
  · split at h
    · split at h
      · cases h
      · next a2 leftover heq =>
        split at h
        · next hempty =>
          simp only [Except.ok.injEq, Prod.mk.injEq] at h
          obtain ⟨rfl, -⟩ := h
          exact ⟨_, by rw [heq, hempty]⟩
        · cases h
    · cases h
  · cases h

/-- The decode closure only succeeds through the decode tail. -/
theorem decodeContent_ok_inv {ct : List Nat} {c : ManifestContent}
    {leftover : List Nat}
    (h : ManifestContent.decodeContent ct = .ok (c, leftover)) :
    c.this_update ≤ c.next_update ∧ ∃ n, skipLoopCount c.file_list = .ok (n, []) := by
  unfold ManifestContent.decodeContent at h
  split at h
  · cases h
  · split at h
    · split at h
      · split at h
        · cases h
        · exact decodeAfterVersion_ok_inv h
      · cases h
    · exact decodeAfterVersion_ok_inv h

/-- Every successfully decoded manifest content has ordered timestamps
and a captured file list the skip loop fully validates. -/
theorem decode_ok_inv {input : List Nat} {c : ManifestContent} {rest : List Nat}
    (h : ManifestContent.decode input = .ok (c, rest)) :
    c.this_update ≤ c.next_update ∧ ∃ n, skipLoopCount c.file_list = .ok (n, []) := by
  obtain ⟨ct, hct⟩ := berSequence_ok_inv h
  exact decodeContent_ok_inv hct

/-- The empty byte list is a valid (empty) entry list. -/
theorem entryListOk_nil : entryListOk [] = true := by
  simp [entryListOk, skipLoopCount_none skip_opt_in_nil]

/-- Decoding establishes the entry-list shape guarantee on the captured
bytes. -/
theorem entryListOk_decode {input : List Nat} {c : ManifestContent} {rest : List Nat}
    (h : ManifestContent.decode input = .ok (c, rest)) :
    entryListOk c.file_list = true := by
  obtain ⟨-, n, hn⟩ := decode_ok_inv h
  simp [entryListOk, hn]

/-- On a validated entry list the extraction pass cannot fail, and each
step preserves the shape guarantee on the unread remainder. -/
theorem entryListOk_take {fl : List Nat} (h : entryListOk fl = true) :
    (∀ e, FileAndHash.take_opt_from fl ≠ .error e) ∧
    (∀ o rest, FileAndHash.take_opt_from fl = .ok (o, rest) →
      entryListOk rest = true) := by
  cases hs : FileAndHash.skip_opt_in fl with
  | error e =>
    rw [entryListOk, skipLoopCount_error hs] at h
    cases h
  | ok p =>
    obtain ⟨o, r⟩ := p
    cases o with
    | none =>
      rw [entryListOk, skipLoopCount_none hs] at h
      simp only [List.isEmpty_iff] at h
      subst h
      have ht := take_of_skip_none hs
      refine ⟨fun e hc => ?_, fun o rest hc => ?_⟩
      · simp [ht] at hc
      rw [ht] at hc
      simp only [Except.ok.injEq, Prod.mk.injEq] at hc
      obtain ⟨-, rfl⟩ := hc
      exact entryListOk_nil
    | some u =>
      obtain ⟨⟩ := u
      rw [entryListOk, skipLoopCount_some hs] at h
      obtain ⟨fh, ht⟩ := take_of_skip_some hs
      refine ⟨fun e hc => ?_, fun o rest hc => ?_⟩
      · simp [ht] at hc
      rw [ht] at hc
      simp only [Except.ok.injEq, Prod.mk.injEq] at hc
      obtain ⟨-, rfl⟩ := hc
      cases hr : skipLoopCount r with
      | error e => rw [hr] at h; cases h
      | ok q =>
        obtain ⟨n, rem⟩ := q
        rw [hr] at h
        simp only [List.isEmpty_iff] at h
        simp [entryListOk, hr, h]

/-- One `next()` step on a validated remainder neither aborts nor breaks
the shape guarantee. -/
theorem next_preserves {it : ManifestIter} (h : entryListOk it.file_list = true) :
    it.next.1 ≠ .panic ∧ entryListOk it.next.2.file_list = true := by
  obtain ⟨hne, hstep⟩ := entryListOk_take h
  unfold ManifestIter.next
  cases ht : FileAndHash.take_opt_from it.file_list with
  | error e => exact absurd ht (hne e)
  | ok p =>
    obtain ⟨o, rest⟩ := p
    cases o <;> exact ⟨by simp, hstep _ _ ht⟩

/-- The shape guarantee holds at every reachable iterator state. -/
theorem advance_entryListOk {it : ManifestIter}
    (h : entryListOk it.file_list = true) (k : Nat) :
    entryListOk (it.advance k).file_list = true := by
  induction k generalizing it with
  | zero => exact h
  | succ k ih =>
    rw [ManifestIter.advance]
    exact ih (next_preserves h).2

/-- The outcomes after skipping `k` steps are the original outcome
sequence with its first `k` outcomes dropped. -/
theorem run_advance (it : ManifestIter) (k n : Nat) :
    (it.advance k).run n = (it.run (k + n)).drop k := by
  induction k generalizing it with
  | zero => simp [ManifestIter.advance]
  | succ k ih =>
    rw [ManifestIter.advance, ih]
    rw [show k + 1 + n = (k + n) + 1 from by omega]
    rw [ManifestIter.run]
    rfl

/-- The witness digest encoding is injective. -/
theorem encodeNatList_injective : Function.Injective encodeNatList := by
  intro a b h
  induction a generalizing b with
  | nil =>
    cases b with
    | nil => rfl
    | cons y m => simp [encodeNatList] at h
  | cons x l ih =>
    cases b with
    | nil => simp [encodeNatList] at h
    | cons y m =>
      simp only [encodeNatList, Nat.add_right_cancel_iff] at h
      obtain ⟨rfl, h2⟩ := Nat.pair_eq_pair.mp h
      rw [ih h2]

/-- The witness digest function is injective. -/
theorem injDigest_injective : Function.Injective injDigest := by
  intro a b h
  simp only [injDigest, List.cons.injEq] at h
  exact encodeNatList_injective h.1

/-- The witness digest function always yields 32 octets (256 bits). -/
theorem injDigest_length (x : List Nat) : (injDigest x).length = 32 := by
  simp [injDigest]

/-- A fully validated entry list yields exactly as many entries under
full iteration as the skip loop counted. -/
theorem iterEntries_length (n : Nat) : ∀ fl : List Nat,
    skipLoopCount fl = .ok (n, []) → (iterEntries fl).length = n := by
  induction n with
  | zero =>
    intro fl h
    cases hs : FileAndHash.skip_opt_in fl with
    | error e => rw [skipLoopCount_error hs] at h; cases h
    | ok p =>
      obtain ⟨o, r⟩ := p
      cases o with
      | none => rw [iterEntries_none (take_of_skip_none hs)]; rfl
      | some u =>
        obtain ⟨⟩ := u
        rw [skipLoopCount_some hs] at h
        cases hr : skipLoopCount r with
        | error e => rw [hr] at h; cases h
        | ok q => obtain ⟨m, rem⟩ := q; rw [hr] at h; simp at h
  | succ n ih =>
    intro fl h
    cases hs : FileAndHash.skip_opt_in fl with
    | error e => rw [skipLoopCount_error hs] at h; cases h
    | ok p =>
      obtain ⟨o, r⟩ := p
      cases o with
      | none => rw [skipLoopCount_none hs] at h; simp at h
      | some u =>
        obtain ⟨⟩ := u
        rw [skipLoopCount_some hs] at h
        cases hr : skipLoopCount r with
        | error e => rw [hr] at h; cases h
        | ok q =>
          obtain ⟨m, rem⟩ := q
          rw [hr] at h
          simp only [Except.ok.injEq, Prod.mk.injEq, Nat.add_right_cancel_iff] at h
          obtain ⟨rfl, rfl⟩ := h
          obtain ⟨fh, ht⟩ := take_of_skip_some hs
          rw [iterEntries_some ht]
          simp [ih r hr]

/-- An iterator over exhausted bytes keeps reporting exhaustion. -/
theorem run_nil (base : Uri) (n : Nat) :
    (⟨base, []⟩ : ManifestIter).run n = List.replicate n .exhausted := by
  induction n with
  | zero => rfl
  | succ n ih =>
    rw [ManifestIter.run,
      show (⟨base, []⟩ : ManifestIter).next = (.exhausted, ⟨base, []⟩) from rfl, ih]
    rfl

/-- The sample manifest encoding decodes to the sample content. -/
theorem sampleInput_decodes :
    ManifestContent.decode sampleInput = .ok (sampleContent, []) := by
  rw [show sampleInput = encodeManifest true [1] 5 9 sha256Oid sampleEntries from rfl,
    decode_encodeManifest]
  simp [sampleContent]

/-- C1: for every `ManifestContent` produced by a successful decode and
every base URI, at every reachable iterator state the BER decode of the
remaining captured bytes cannot fail, so a `next()` call on which that
decode fails trivially returns an error item, and `next()` never aborts
the process: the `.unwrap()` panic is unreachable because the decode-time
skip pass validated exactly the captured bytes. -/
theorem c1_iter_decode_failure_propagates {input : List Nat} {c : ManifestContent}
    {rest : List Nat} (base : Uri) (k : Nat)
    (hdec : ManifestContent.decode input = .ok (c, rest)) :
    ((c.iter_uris base).advance k).next.1 ≠ .panic ∧
    ∀ e, FileAndHash.take_opt_from ((c.iter_uris base).advance k).file_list ≠
      .error e := by
  have h0 : entryListOk (c.iter_uris base).file_list = true := entryListOk_decode hdec
  have hk := advance_entryListOk h0 k
  exact ⟨(next_preserves hk).1, (entryListOk_take hk).1⟩

/-- C1 witness: a concrete decoded manifest iterated one step never
panics. -/
theorem c1_iter_decode_failure_propagates_witness :
    ((sampleContent.iter_uris sampleBase).advance 1).next.1 ≠ .panic :=
  (c1_iter_decode_failure_propagates sampleBase 1 sampleInput_decodes).1

/-- C2: a stored digest whose bit string has a nonzero unused-bit count
makes `verify` abort (the `.unwrap()` on `octet_slice`), contradicting
the claim that it returns a `ValidationError`; such digests are reachable
because the entry codec accepts any unused-bit octet. -/
theorem c2_verify_panic_on_nonzero_unused :
    ManifestHash.verify injDigest ⟨⟨1, List.replicate 32 0⟩⟩ [] = .panic ∧
    (ManifestIter.next ⟨⟨[]⟩, encodeEntry [0x66] 1 (List.replicate 32 0) ++ []⟩).1 =
      .item (.ok (⟨[0x66]⟩, ⟨⟨1, List.replicate 32 0⟩⟩)) :=
  ⟨rfl, rfl⟩

/-- C3: decoding enforces the timestamp ordering invariant: every decoded
content has `thisUpdate ≤ nextUpdate`; on otherwise-valid encodings
decode succeeds exactly when the timestamps are ordered and fails as
malformed when `thisUpdate > nextUpdate`. -/
theorem c3_timestamp_ordering :
    (∀ input c rest, ManifestContent.decode input = .ok (c, rest) →
      c.this_update ≤ c.next_update) ∧
    (∀ (v : Bool) (mn : List Nat) (t1 t2 : Nat)
        (es : List (List Nat × Nat × List Nat)), mn ≠ [] →
      (t1 ≤ t2 →
        ManifestContent.decode (encodeManifest v mn t1 t2 sha256Oid es) =
          .ok (⟨mn, t1, t2, encodeEntries es⟩, [])) ∧
      (t2 < t1 →
        ManifestContent.decode (encodeManifest v mn t1 t2 sha256Oid es) =
          .error .malformed)) := by
  refine ⟨fun input c rest h => (decode_ok_inv h).1,
    fun v mn t1 t2 es hmn => ⟨fun hle => ?_, fun hgt => ?_⟩⟩
  · rw [decode_encodeManifest]
    simp [hmn, Nat.not_lt.mpr hle]
  · rw [decode_encodeManifest]
    simp [hmn, hgt]

/-- C3 witness: a concrete ordered encoding decodes and a concrete
reversed one fails. -/
theorem c3_timestamp_ordering_witness :
    ManifestContent.decode (encodeManifest false [1] 3 5 sha256Oid []) =
      .ok (⟨[1], 3, 5, encodeEntries []⟩, []) ∧
    ManifestContent.decode (encodeManifest false [1] 5 3 sha256Oid []) =
      .error .malformed :=
  ⟨(c3_timestamp_ordering.2 false [1] 3 5 [] (by decide)).1 (by decide),
   (c3_timestamp_ordering.2 false [1] 5 3 [] (by decide)).2 (by decide)⟩

/-- C4: the structure-only pass is pointwise the full-extraction pass
with the extracted entry forgotten (same acceptance, same errors, same
consumption), and on every fully validated entry list the skip-loop
count equals the number of entries full iteration yields. -/
theorem c4_skip_take_equivalence :
    (∀ input, FileAndHash.skip_opt_in input =
      stripEntry (FileAndHash.take_opt_from input)) ∧
    (∀ fl n, skipLoopCount fl = .ok (n, []) → (iterEntries fl).length = n) :=
  ⟨skip_opt_in_eq_strip, fun fl n h => iterEntries_length n fl h⟩

/-- C4 witness: the two passes agree on a concrete entry list and the
counts match there. -/
theorem c4_skip_take_equivalence_witness :
    FileAndHash.skip_opt_in (encodeEntries sampleEntries) =
      stripEntry (FileAndHash.take_opt_from (encodeEntries sampleEntries)) ∧
    (iterEntries (encodeEntries sampleEntries)).length = 1 :=
  ⟨c4_skip_take_equivalence.1 (encodeEntries sampleEntries),
   c4_skip_take_equivalence.2 (encodeEntries sampleEntries) 1
     (skipLoopCount_encodeEntries sampleEntries)⟩

/-- C5: with the digest primitive abstract and collision-free (the
spec's idealisation of SHA-256) and producing 256-bit outputs, a
well-formed stored digest of `X` verifies `X` and rejects every
`Y ≠ X` with a validation error, length mismatches included. -/
theorem c5_verify_correctness (sha256 : List Nat → List Nat)
    (hinj : Function.Injective sha256) (hlen : ∀ x, (sha256 x).length = 32)
    (X Y : List Nat) :
    8 * (⟨⟨0, sha256 X⟩⟩ : ManifestHash).bits.octets.length = 256 ∧
    ManifestHash.verify sha256 ⟨⟨0, sha256 X⟩⟩ X = .ok ∧
    (Y ≠ X → ManifestHash.verify sha256 ⟨⟨0, sha256 X⟩⟩ Y = .err) := by
  refine ⟨by simp [hlen], by simp [ManifestHash.verify, BitString.octet_slice], ?_⟩
  intro hne
  have hd : sha256 X ≠ sha256 Y := fun hc => hne (hinj hc.symm)
  simp [ManifestHash.verify, BitString.octet_slice, hd]

/-- C5 witness: a concrete injective 32-octet digest function verifies
its own digest and rejects a different input. -/
theorem c5_verify_correctness_witness :
    ManifestHash.verify injDigest ⟨⟨0, injDigest [1]⟩⟩ [1] = .ok ∧
    ManifestHash.verify injDigest ⟨⟨0, injDigest [1]⟩⟩ [2] = .err :=
  have h := c5_verify_correctness injDigest injDigest_injective injDigest_length [1] [2]
  ⟨h.2.1, h.2.2 (by decide)⟩

/-- C6: an encoding whose digest-algorithm identifier is not the SHA-256
identifier fails to decode as malformed, and a successful decode implies
the identifier was SHA-256 — the decoder never substitutes a default. -/
theorem c6_sha256_only :
    (∀ (v : Bool) (mn alg : List Nat) (t1 t2 : Nat)
        (es : List (List Nat × Nat × List Nat)), alg ≠ sha256Oid →
      ManifestContent.decode (encodeManifest v mn t1 t2 alg es) = .error .malformed) ∧
    (∀ (v : Bool) (mn alg : List Nat) (t1 t2 : Nat)
        (es : List (List Nat × Nat × List Nat)) (c : ManifestContent) (rest : List Nat),
      ManifestContent.decode (encodeManifest v mn t1 t2 alg es) = .ok (c, rest) →
      alg = sha256Oid) := by
  have h1 : ∀ (v : Bool) (mn alg : List Nat) (t1 t2 : Nat)
      (es : List (List Nat × Nat × List Nat)), alg ≠ sha256Oid →
      ManifestContent.decode (encodeManifest v mn t1 t2 alg es) = .error .malformed := by
    intro v mn alg t1 t2 es halg
    rw [decode_encodeManifest]
    by_cases hmn : mn = [] <;> by_cases hord : t2 < t1 <;> simp [hmn, hord, halg]
  refine ⟨h1, fun v mn alg t1 t2 es c rest hok => ?_⟩
  by_contra halg
  rw [h1 v mn alg t1 t2 es halg] at hok
  cases hok

/-- C6 witness: a concrete non-SHA-256 identifier is rejected. -/
theorem c6_sha256_only_witness :
    ManifestContent.decode (encodeManifest false [1] 3 5 [1, 2, 3] []) =
      .error .malformed :=
  c6_sha256_only.1 false [1] [1, 2, 3] 3 5 [] (by decide)

/-- C7: a valid-UTF-8, joinable file name resolves to the base URI with
the name appended; an invalid-UTF-8 name or a failing join yields a
validation-error item for that entry only — the iterator advances past
the entry either way, so subsequent entries remain consumable. -/
theorem c7_filename_resolution (base : Uri) (name : List Nat) (u : Nat) (d : List Nat)
    (rest : List Nat) :
    (validUtf8 name = true →
      ¬(name = [] ∨ 0x2F ∈ name ∨ name = [0x2E] ∨ name = [0x2E, 0x2E]) →
      ManifestIter.next ⟨base, encodeEntry name u d ++ rest⟩ =
        (.item (.ok (⟨base.bytes ++ name⟩, ⟨⟨u, d⟩⟩)), ⟨base, rest⟩)) ∧
    (validUtf8 name = false ∨
        (name = [] ∨ 0x2F ∈ name ∨ name = [0x2E] ∨ name = [0x2E, 0x2E]) →
      ManifestIter.next ⟨base, encodeEntry name u d ++ rest⟩ =
        (.item (.error .validationError), ⟨base, rest⟩)) := by
  constructor
  · intro hutf hjoin
    simp [ManifestIter.next, take_opt_from_encodeEntry, FileAndHash.to_uri_etc,
      Uri.join, hutf, hjoin]
  · intro hbad
    rcases hbad with hutf | hjoin
    · simp [ManifestIter.next, take_opt_from_encodeEntry, FileAndHash.to_uri_etc, hutf]
    · by_cases hutf : validUtf8 name = true
      · simp [ManifestIter.next, take_opt_from_encodeEntry, FileAndHash.to_uri_etc,
          Uri.join, hutf, hjoin]
      · simp [ManifestIter.next, take_opt_from_encodeEntry, FileAndHash.to_uri_etc,
          Bool.of_not_eq_true hutf]

/-- C7 witness: `file.cer` resolves against `rsync://repo/path/` and an
invalid UTF-8 name yields a per-entry error with the iterator advanced. -/
theorem c7_filename_resolution_witness :
    ManifestIter.next ⟨⟨[0x72, 0x73, 0x79, 0x6E, 0x63, 0x3A, 0x2F, 0x2F, 0x72, 0x65,
        0x70, 0x6F, 0x2F, 0x70, 0x61, 0x74, 0x68, 0x2F]⟩,
      encodeEntry [0x66, 0x69, 0x6C, 0x65, 0x2E, 0x63, 0x65, 0x72] 0 [7] ++ []⟩ =
      (.item (.ok (⟨[0x72, 0x73, 0x79, 0x6E, 0x63, 0x3A, 0x2F, 0x2F, 0x72, 0x65,
          0x70, 0x6F, 0x2F, 0x70, 0x61, 0x74, 0x68, 0x2F] ++
          [0x66, 0x69, 0x6C, 0x65, 0x2E, 0x63, 0x65, 0x72]⟩, ⟨⟨0, [7]⟩⟩)),
        ⟨⟨[0x72, 0x73, 0x79, 0x6E, 0x63, 0x3A, 0x2F, 0x2F, 0x72, 0x65, 0x70, 0x6F,
          0x2F, 0x70, 0x61, 0x74, 0x68, 0x2F]⟩, []⟩) ∧
    ManifestIter.next ⟨⟨[0x72, 0x2F]⟩, encodeEntry [0xFF] 0 [7] ++ []⟩ =
      (.item (.error .validationError), ⟨⟨[0x72, 0x2F]⟩, []⟩) :=
  ⟨(c7_filename_resolution ⟨[0x72, 0x73, 0x79, 0x6E, 0x63, 0x3A, 0x2F, 0x2F, 0x72,
      0x65, 0x70, 0x6F, 0x2F, 0x70, 0x61, 0x74, 0x68, 0x2F]⟩
      [0x66, 0x69, 0x6C, 0x65, 0x2E, 0x63, 0x65, 0x72] 0 [7] []).1 (by decide) (by decide),
   (c7_filename_resolution ⟨[0x72, 0x2F]⟩ [0xFF] 0 [7] []).2 (Or.inl (by decide))⟩

/-- C8: an otherwise-valid encoding with an empty entry-list region
decodes to a content with an empty captured file list, and every
iteration over it immediately reports exhaustion, yielding no items. -/
theorem c8_empty_list_roundtrip (v : Bool) (mn : List Nat) (t1 t2 : Nat) (base : Uri)
    (hmn : mn ≠ []) (hord : t1 ≤ t2) :
    ManifestContent.decode (encodeManifest v mn t1 t2 sha256Oid []) =
      .ok (⟨mn, t1, t2, []⟩, []) ∧
    ∀ n, ((⟨mn, t1, t2, []⟩ : ManifestContent).iter_uris base).run n =
      List.replicate n .exhausted := by
  constructor
  · rw [decode_encodeManifest]
    simp [hmn, Nat.not_lt.mpr hord]
    rfl
  · intro n
    exact run_nil base n

/-- C8 witness: a concrete empty-list manifest decodes and yields only
exhaustion outcomes. -/
theorem c8_empty_list_roundtrip_witness :
    ManifestContent.decode (encodeManifest false [1] 3 5 sha256Oid []) =
      .ok (⟨[1], 3, 5, []⟩, []) ∧
    ((⟨[1], 3, 5, []⟩ : ManifestContent).iter_uris sampleBase).run 2 =
      [.exhausted, .exhausted] :=
  have h := c8_empty_list_roundtrip false [1] 3 5 sampleBase (by decide) (by decide)
  ⟨h.1, h.2 2⟩

/-- C9: the outcome sequence of an iterator depends only on the shared
content bytes and the base URI, so two independently constructed
iterators over the same content produce identical sequences in the same
order. -/
theorem c9_deterministic_iteration (c c2 : ManifestContent) (base base2 : Uri)
    (n : Nat) (hfl : c.file_list = c2.file_list) (hb : base = base2) :
    (c.iter_uris base).run n = (c2.iter_uris base2).run n := by
  unfold ManifestContent.iter_uris
  rw [hfl, hb]

/-- C9 witness: two iterators freshly built over the sample content
produce the same three outcomes. -/
theorem c9_deterministic_iteration_witness :
    (sampleContent.iter_uris sampleBase).run 3 =
      (sampleContent.iter_uris sampleBase).run 3 :=
  c9_deterministic_iteration sampleContent sampleContent sampleBase sampleBase 3 rfl rfl

/-- C10: cloning an iterator in any intermediate state yields one whose
outcome sequence equals the original's remaining sequence — the suffix of
the full sequence past the consumed prefix — and, the model being pure,
advancing the clone leaves the original untouched. -/
theorem c10_clone_iterator (it : ManifestIter) (k n : Nat) :
    ((it.advance k).clone).run n = (it.advance k).run n ∧
    ((it.advance k).clone).run n = (it.run (k + n)).drop k := by
  have hc : (it.advance k).clone = it.advance k := rfl
  rw [hc]
  exact ⟨rfl, run_advance it k n⟩

end Manifest
